import Mathlib

/-!
Verification of the rdf2hdt encoder (DeciSym/rdf2hdt) against its
natural-language specification.  The Rust source in `src/src/lib.rs` and
`src/src/log_sequence.rs` is shallowly embedded below: `u32` values become
`Nat`, fallible functions return `Except`/`Option`, and a Rust process abort
is kept distinct from a returned error by the `RustOutcome` type.
-/

set_option autoImplicit false

namespace Rdf2Hdt

/-- One encoded RDF triple of dictionary IDs.  Models `struct EncodedTripleId`
(src/src/lib.rs lines 66-71); the Rust `u32` fields are modelled as `Nat`. -/
structure EncodedTripleId where
  subject : Nat
  predicate : Nat
  object : Nat
deriving DecidableEq

/-- Result of a fallible Rust call.  `ok` and `err` are the two sides of the
Rust `Result`; `panicked` models a process abort with its message, which is
not a value returned to the caller. -/
inductive RustOutcome (α : Type) where
  | ok (value : α)
  | err (msg : String)
  | panicked (msg : String)
deriving DecidableEq

/-- True exactly on the `ok` constructor. -/
def RustOutcome.isOk {α : Type} : RustOutcome α → Bool
  | .ok _ => true
  | .err _ => false
  | .panicked _ => false

/-- The `spo_comparator` order (src/src/lib.rs lines 633-645) as a
"less or equal" relation: subject first, then predicate, then object. -/
def spoLe (a b : EncodedTripleId) : Prop :=
  a.subject < b.subject ∨
    (a.subject = b.subject ∧
      (a.predicate < b.predicate ∨ (a.predicate = b.predicate ∧ a.object ≤ b.object)))

instance spoLe.instDecidable : DecidableRel spoLe := fun a b =>
  inferInstanceAs (Decidable (a.subject < b.subject ∨
    (a.subject = b.subject ∧
      (a.predicate < b.predicate ∨ (a.predicate = b.predicate ∧ a.object ≤ b.object)))))

/-- Strict SPO lexicographic order (used to state "sorted with no duplicate
triples"). -/
def spoLt (a b : EncodedTripleId) : Prop :=
  a.subject < b.subject ∨
    (a.subject = b.subject ∧
      (a.predicate < b.predicate ∨ (a.predicate = b.predicate ∧ a.object < b.object)))

instance spoLt.instDecidable : DecidableRel spoLt := fun a b =>
  inferInstanceAs (Decidable (a.subject < b.subject ∨
    (a.subject = b.subject ∧
      (a.predicate < b.predicate ∨ (a.predicate = b.predicate ∧ a.object < b.object)))))

/-- Models `sort_triples_spo` (src/src/lib.rs lines 629-631): Rust's stable
`sort_by` with `spo_comparator`.  Insertion sort with the same total order
gives the same result at the value level (stability can only permute fully
equal triples, which are indistinguishable). -/
def sort_triples_spo (ts : List EncodedTripleId) : List EncodedTripleId :=
  List.insertionSort spoLe ts

/-- What one walk of `BitmapTriples::load` appends after the first triple:
(bits appended to By, bits appended to Bz, IDs appended to Y, IDs appended
to Z). -/
abbrev WalkTail := List Bool × List Bool × List Nat × List Nat

/-- The loop body of `BitmapTriples::load` (src/src/lib.rs lines 680-729) for
every triple after the first, with `last` the previously seen triple.  The
four `panic` calls of the source are modelled as `Except.error` carrying the
panic message. -/
def walkAux (last : EncodedTripleId) : List EncodedTripleId → Except String WalkTail
  | [] => .ok ([], [], [], [])
  | t :: rest =>
    if t.subject = 0 ∨ t.predicate = 0 ∨ t.object = 0 then .error "something is zero"
    else if t.subject ≠ last.subject then
      if t.subject ≠ last.subject + 1 then .error "bad x value"
      else (walkAux t rest).map fun q =>
        (true :: q.1, true :: q.2.1, t.predicate :: q.2.2.1, t.object :: q.2.2.2)
    else if t.predicate ≠ last.predicate then
      if t.predicate < last.predicate then .error "problem with y"
      else (walkAux t rest).map fun q =>
        (false :: q.1, true :: q.2.1, t.predicate :: q.2.2.1, t.object :: q.2.2.2)
    else
      if t.object < last.object then .error "bad z"
      else (walkAux t rest).map fun q =>
        (q.1, false :: q.2.1, q.2.2.1, t.object :: q.2.2.2)

/-- The output arrays and bitmaps of `struct BitmapTriples`
(src/src/lib.rs lines 647-655).  The constant `order` field (always SPO) and
the derived `num_triples` count are not modelled: no claim refers to them. -/
structure BitmapTriples where
  y_vec : List Nat
  z_vec : List Nat
  bitmap_y : List Bool
  bitmap_z : List Bool
deriving DecidableEq

/-- Models `BitmapTriples::load` (src/src/lib.rs lines 667-742): sort the
triples in SPO order, walk them building `Y`, `Z`, `By`, `Bz` (the first
triple contributes to `Y` and `Z` only), then append a final `1` to each
bitmap.  The `panic` calls become `RustOutcome.panicked`. -/
def BitmapTriples.load (triples : List EncodedTripleId) : RustOutcome BitmapTriples :=
  match sort_triples_spo triples with
  | [] => .ok ⟨[], [], [true], [true]⟩
  | h :: rest =>
    if h.subject = 0 ∨ h.predicate = 0 ∨ h.object = 0 then .panicked "something is zero"
    else
      match walkAux h rest with
      | .error m => .panicked m
      | .ok q =>
        .ok ⟨h.predicate :: q.2.2.1, h.object :: q.2.2.2, q.1 ++ [true], q.2.1 ++ [true]⟩

/-- The walk of spec section 4.8, written from the spec's words (a second,
clearly separated definition used to compare the code against the spec):
"When `subject` advances by exactly 1: push 1 to By, append y to Y; push 1 to
Bz, append z to Z.  When `subject` is unchanged but `predicate` changes
(strictly greater): push 0 to By, append y to Y; push 1 to Bz, append z to Z.
When `subject` and `predicate` unchanged but `object` changes (strictly
greater): push 0 to Bz, append z to Z."  Outside these cases the spec walk is
undefined, modelled as `none`. -/
def specWalkAux (last : EncodedTripleId) : List EncodedTripleId → Option WalkTail
  | [] => some ([], [], [], [])
  | t :: rest =>
    if t.subject = last.subject + 1 then
      (specWalkAux t rest).map fun q =>
        (true :: q.1, true :: q.2.1, t.predicate :: q.2.2.1, t.object :: q.2.2.2)
    else if t.subject = last.subject ∧ last.predicate < t.predicate then
      (specWalkAux t rest).map fun q =>
        (false :: q.1, true :: q.2.1, t.predicate :: q.2.2.1, t.object :: q.2.2.2)
    else if t.subject = last.subject ∧ t.predicate = last.predicate ∧ last.object < t.object then
      (specWalkAux t rest).map fun q =>
        (q.1, false :: q.2.1, q.2.2.1, t.object :: q.2.2.2)
    else none

/-- The full spec walk (spec sections 3 and 4.8): first triple contributes
`y`/`z` only, then the case walk, then a final `1` appended to `By` and `Bz`. -/
def specWalk : List EncodedTripleId → Option BitmapTriples
  | [] => some ⟨[], [], [true], [true]⟩
  | h :: rest => (specWalkAux h rest).map fun q =>
      ⟨h.predicate :: q.2.2.1, h.object :: q.2.2.2, q.1 ++ [true], q.2.1 ++ [true]⟩

/-- The head of the sorted list carries subject ID 1 (vacuous when empty). -/
def headSubjectOne : List EncodedTripleId → Prop
  | [] => True
  | h :: _ => h.subject = 1

instance headSubjectOne.instDecidable : ∀ l, Decidable (headSubjectOne l)
  | [] => .isTrue trivial
  | h :: _ => inferInstanceAs (Decidable (h.subject = 1))

/-- Dense subjects as required by claim C2: the SPO-sorted list starts at
subject 1 and each step keeps the subject or advances it by exactly one. -/
def denseSubjects (l : List EncodedTripleId) : Prop :=
  headSubjectOne l ∧
    l.Chain' fun a b => b.subject = a.subject ∨ b.subject = a.subject + 1

/-- The per-step acceptance condition of the section 4.8 walk (the exact
complement of the three panic checks of `walkAux` for a pair of consecutive
sorted triples): the subject advances by exactly one, or stays with a
non-regressing predicate, or subject and predicate stay with a
non-regressing object.  An adjacent pair of the SPO-sorted list violating
this condition is exactly a section 4.8 violation: a subject gap or
regression, a predicate regression within its subject group, or an object
regression within its (subject, predicate) group. -/
def walkStepOk (a b : EncodedTripleId) : Prop :=
  b.subject = a.subject + 1 ∨
    (b.subject = a.subject ∧
      (a.predicate < b.predicate ∨ (a.predicate = b.predicate ∧ a.object ≤ b.object)))

/-- The Z array of a successful `BitmapTriples::load`, `none` on panic. -/
def loadedZLength (ts : List EncodedTripleId) : Option Nat :=
  match BitmapTriples.load ts with
  | .ok bt => some bt.z_vec.length
  | .err _ => none
  | .panicked _ => none

/-- The lengths of Y and By of a successful `BitmapTriples::load`. -/
def loadedYByLengths (ts : List EncodedTripleId) : Option (Nat × Nat) :=
  match BitmapTriples.load ts with
  | .ok bt => some (bt.y_vec.length, bt.bitmap_y.length)
  | .err _ => none
  | .panicked _ => none

/-- True exactly on the `err` constructor (a typed error value returned to
the caller, as opposed to a panic). -/
def RustOutcome.isTypedErr {α : Type} : RustOutcome α → Bool
  | .ok _ => false
  | .err _ => true
  | .panicked _ => false

/-- Lexicographic comparison of character lists by Unicode scalar value.
For valid UTF-8 this coincides with the byte-lexicographic `Ord` that Rust's
`BTreeSet<String>` uses. -/
def charListLt : List Char → List Char → Bool
  | [], [] => false
  | [], _ :: _ => true
  | _ :: _, [] => false
  | a :: as, b :: bs =>
    if a.toNat < b.toNat then true
    else if b.toNat < a.toNat then false
    else charListLt as bs

/-- The string order of Rust's `BTreeSet<String>`. -/
def strLt (a b : String) : Bool := charListLt a.data b.data

/-- Ordered-set insertion: models `BTreeSet::insert` on `String` keys (the
set iterates in ascending order and stores each key once). -/
def insertSorted (s : String) : List String → List String
  | [] => [s]
  | h :: r =>
    if strLt s h then s :: h :: r
    else if s = h then h :: r
    else h :: insertSorted s r

/-- The sorted deduplicated list of a list of strings: models building a
`BTreeSet<String>` by repeated insertion and then iterating it. -/
def setOfList (l : List String) : List String :=
  l.foldl (fun acc s => insertSorted s acc) []

/-- Position of the first occurrence of a key in a list, `none` when absent:
models the id lookup in a `HashMap` whose values were assigned by
enumerating the list (`id = position + offset`). -/
def lookupIdx : List String → String → Option Nat
  | [], _ => none
  | h :: r, t => if t = h then some 0 else (lookupIdx r t).map (· + 1)

/-- The four term groups of `struct FourSectionDictionary`
(src/src/lib.rs lines 203-216).  The `BTreeSet` fields are modelled as their
sorted deduplicated element lists; the four `HashMap` id maps are recovered
from the lists by `term_to_id` below (the map value for the i-th list element
is i plus the group's offset, exactly as the enumeration loops of the source
assign them).  The `size_strings` field is not modelled: no claim uses it. -/
structure FourSectionDictionary where
  shared_terms : List String
  subject_terms : List String
  object_terms : List String
  predicate_terms : List String
deriving DecidableEq

/-- The role argument of `term_to_id` (src/src/lib.rs lines 218-223). -/
inductive DictionaryRole where
  | Subject
  | Predicate
  | Object
deriving DecidableEq

/-- The pure core of passes 1 and 2 of `FourSectionDictionary::load`
(src/src/lib.rs lines 259-304): collect the subject, predicate and object
term sets over the parsed triples, intersect subjects with objects into the
shared set, and keep the differences as subject-only and object-only sets.
The input is the list of parsed triples, each term already normalized by
`term_to_hdt_bgp_str`; RDF parsing and file IO are external. -/
def FourSectionDictionary.build (ts : List (String × String × String)) :
    FourSectionDictionary :=
  let subjects_seen := setOfList (ts.map fun t => t.1)
  let objects_seen := setOfList (ts.map fun t => t.2.2)
  let shared := subjects_seen.filter fun s => decide (s ∈ objects_seen)
  { shared_terms := shared
    subject_terms := subjects_seen.filter fun s => !decide (s ∈ shared)
    object_terms := objects_seen.filter fun s => !decide (s ∈ shared)
    predicate_terms := setOfList (ts.map fun t => t.2.1) }

/-- Models `FourSectionDictionary::term_to_id` (src/src/lib.rs lines
339-357): predicates look up `pred_id_map`; subjects and objects first look
up `so_id_map` and fall back to their own map.  The id assigned by the
source's enumeration loops is position + 1 for the shared and predicate
groups and position + |shared| + 1 for the subject-only and object-only
groups.  The `.unwrap()` panics of the source show up as `none`. -/
def FourSectionDictionary.term_to_id (d : FourSectionDictionary) (term : String) :
    DictionaryRole → Option Nat
  | .Predicate => (lookupIdx d.predicate_terms term).map (· + 1)
  | .Subject =>
    match lookupIdx d.shared_terms term with
    | some i => some (i + 1)
    | none => (lookupIdx d.subject_terms term).map (· + d.shared_terms.length + 1)
  | .Object =>
    match lookupIdx d.shared_terms term with
    | some i => some (i + 1)
    | none => (lookupIdx d.object_terms term).map (· + d.shared_terms.length + 1)

/-- Pass 3 of `FourSectionDictionary::load` (src/src/lib.rs lines 315-333):
re-walk the same triples and translate each term by role.  A failed lookup
(`none`) models the `.unwrap()` panic. -/
def encode_triples (d : FourSectionDictionary) (ts : List (String × String × String)) :
    List (Option EncodedTripleId) :=
  ts.map fun x =>
    match d.term_to_id x.1 .Subject, d.term_to_id x.2.1 .Predicate,
        d.term_to_id x.2.2 .Object with
    | some s, some p, some o => some ⟨s, p, o⟩
    | _, _, _ => none

/-- The UTF-8 encoding of one Unicode scalar value, as the bytes Rust's
`str::as_bytes` exposes. -/
def utf8CharBytes (c : Char) : List Nat :=
  let n := c.toNat
  if n < 128 then [n]
  else if n < 2048 then [192 + n / 64, 128 + n % 64]
  else if n < 65536 then [224 + n / 4096, 128 + n / 64 % 64, 128 + n % 64]
  else [240 + n / 262144, 128 + n / 4096 % 64, 128 + n / 64 % 64, 128 + n % 64]

/-- The UTF-8 bytes of a term (a Rust `String` viewed as its characters). -/
def utf8Bytes (s : List Char) : List Nat := (s.map utf8CharBytes).flatten

/-- Modelled from the spec: `hdt::containers::vbyte::encode_vbyte` is an
external crate function; section 4.4 defines it as 7 data bits per byte,
least significant group first, high bit 1 on continuation bytes and 0 on the
last byte.  The first argument is recursion fuel (always sufficient, since
the value shrinks by a factor of 128 per step). -/
def vbyteAux : Nat → Nat → List Nat
  | 0, n => [n % 128]
  | fuel + 1, n => if n < 128 then [n] else (128 + n % 128) :: vbyteAux fuel (n / 128)

/-- Modelled from the spec: variable-byte encoding of a count (section 4.4). -/
def encode_vbyte (n : Nat) : List Nat := vbyteAux n n

/-- Whether byte index `i` is a character boundary of the UTF-8 encoding of
the term; Rust's slice `&term[i..]` panics when it is not (and when `i`
exceeds the byte length). -/
def isCharBoundary : List Char → Nat → Bool
  | _, 0 => true
  | [], _ + 1 => false
  | c :: r, i + 1 =>
    if i + 1 < (utf8CharBytes c).length then false
    else isCharBoundary r (i + 1 - (utf8CharBytes c).length)

/-- Models the Rust expression `term[i..].as_bytes()`: the byte suffix when
`i` is a char boundary, `none` (a panic) otherwise. -/
def str_slice_from (s : List Char) (i : Nat) : Option (List Nat) :=
  if isCharBoundary s i then some ((utf8Bytes s).drop i) else none

/-- Models the Rust expression
`last_term.chars().zip(term.chars()).take_while(|(a, b)| a == b).count()`
(src/src/log_sequence.rs lines 37-41): the number of leading equal
characters, a CHARACTER count. -/
def common_prefix_len (a b : List Char) : Nat :=
  ((a.zip b).takeWhile fun p => p.1 == p.2).length

/-- The output of `LogSequence2::compress` (src/src/log_sequence.rs lines
13-17): compressed byte stream, block offsets, term count. -/
structure LogSequence2 where
  compressed_terms : List Nat
  offsets : List Nat
  num_terms : Nat
deriving DecidableEq

/-- The loop of `LogSequence2::compress` (src/src/log_sequence.rs lines
31-50): every 16th term is stored fully after recording its offset; other
terms store the variable-byte CHARACTER-count prefix length followed by the
bytes of `term[common_prefix_len..]` - a BYTE-index slice, which panics
(`none`) when the character count is not a byte boundary.  Each term is
followed by a 0 separator, and a final offset records the total size. -/
def compressAux : Nat → List Char → List (List Char) → List Nat → List Nat →
    Option (List Nat × List Nat)
  | _, _, [], bytes, offs => some (bytes, offs ++ [bytes.length])
  | i, last, term :: rest, bytes, offs =>
    if i % 16 = 0 then
      compressAux (i + 1) term rest (bytes ++ utf8Bytes term ++ [0]) (offs ++ [bytes.length])
    else
      match str_slice_from term (common_prefix_len last term) with
      | none => none
      | some suffix =>
        compressAux (i + 1) term rest
          (bytes ++ encode_vbyte (common_prefix_len last term) ++ suffix ++ [0]) offs

/-- Models `LogSequence2::compress` (src/src/log_sequence.rs lines 21-57) on
the sorted term list a `BTreeSet<String>` iterates (terms as character
lists); `none` models the slice panic. -/
def LogSequence2.compress (terms : List (List Char)) : Option LogSequence2 :=
  (compressAux 0 [] terms [] []).map fun r => ⟨r.1, r.2, terms.length⟩

/-- One shift step of CRC-8/SMBus (polynomial 0x07, no reflection). -/
def crc8Round (c : Nat) : Nat :=
  if c &&& 128 ≠ 0 then ((c <<< 1) ^^^ 7) &&& 255 else (c <<< 1) &&& 255

/-- Folding one byte into a CRC-8/SMBus state: models `crc::Crc::<u8>` with
`CRC_8_SMBUS` (init 0, xorout 0). -/
def crc8Byte (crc b : Nat) : Nat := crc8Round^[8] ((crc ^^^ b) &&& 255)

/-- CRC-8/SMBus of a byte sequence. -/
def crc8 (bytes : List Nat) : Nat := bytes.foldl crc8Byte 0

/-- One shift step of CRC-32C/iSCSI in its reflected form
(reflected polynomial 0x82F63B78). -/
def crc32cRound (c : Nat) : Nat :=
  if c &&& 1 ≠ 0 then (c >>> 1) ^^^ 2197175160 else c >>> 1

/-- Folding one byte into a CRC-32C state: models `crc::Crc::<u32>` with
`CRC_32_ISCSI` (init 0xFFFFFFFF, reflected, xorout 0xFFFFFFFF). -/
def crc32cByte (crc b : Nat) : Nat := crc32cRound^[8] ((crc ^^^ (b &&& 255)) &&& 4294967295)

/-- CRC-32C/iSCSI of a byte sequence. -/
def crc32c (bytes : List Nat) : Nat :=
  (bytes.foldl crc32cByte 4294967295) ^^^ 4294967295

/-- The four little-endian bytes of a `u32` value (`u32::to_le_bytes`). -/
def u32_to_le_bytes (n : Nat) : List Nat :=
  [n % 256, n / 256 % 256, n / 65536 % 256, n / 16777216 % 256]

/-- Models `convert_vec_u32_to_vec_u8` (src/src/lib.rs lines 195-201): each
entry as 4 little-endian bytes, concatenated. -/
def convert_vec_u32_to_vec_u8 (ints : List Nat) : List Nat :=
  (ints.map u32_to_le_bytes).flatten

/-- Models `save_u32_vec` (src/src/lib.rs lines 164-193) as the byte stream
it writes: the write calls in source order, with the CRC-8 hasher updated
incrementally after each header write and the CRC-32C hasher over the data
write, each checksum written in little-endian order. -/
def save_u32_vec (ints : List Nat) : List Nat :=
  let seq_type := [1]
  let d1 := List.foldl crc8Byte 0 seq_type
  let bits_per_entry := [32]
  let d2 := List.foldl crc8Byte d1 bits_per_entry
  let cnt := encode_vbyte ints.length
  let d3 := List.foldl crc8Byte d2 cnt
  let offset_data := convert_vec_u32_to_vec_u8 ints
  seq_type ++ bits_per_entry ++ cnt ++ [d3] ++ offset_data ++
    u32_to_le_bytes (crc32c offset_data)

/-- The byte layout claimed by C8 (spec section 4.5), written from the claim:
tag byte 0x01, byte 0x20, vbyte entry count, one CRC-8/SMBus byte over the
preceding header bytes, the entries as 4 little-endian bytes each, and the
CRC-32C of the data bytes as 4 little-endian bytes. -/
def save_u32_vec_layout (ints : List Nat) : List Nat :=
  let header := [1, 32] ++ encode_vbyte ints.length
  let data := (ints.map u32_to_le_bytes).flatten
  header ++ [crc8 header] ++ data ++ u32_to_le_bytes (crc32c data)

/-- Models `ConvertedHDT::build_header` (src/src/lib.rs lines 446-597) as the
list of header triples inserted, in source order, over an abstract term
alphabet of plain strings: IRIs are written bare, blank nodes with a `_:`
prefix, literal values passed in as the string parameters (`num_triples`
appears in both the void:triples and the hdt#triplesnumTriples rows, as in
the source).  The placeholder literals "2233", "777", "16", "222" and the
order literal "SPO" are the source's hard-coded values. -/
def build_header (base_iri num_triples num_properties num_distinct_subjects
    num_distinct_objects num_shared original_size issued : String) :
    List (String × String × String) :=
  [(base_iri, "http://www.w3.org/1999/02/22-rdf-syntax-ns#type",
      "http://purl.org/HDT/hdt#HDTv1"),
   (base_iri, "http://www.w3.org/1999/02/22-rdf-syntax-ns#type",
      "http://rdfs.org/ns/void#Dataset"),
   (base_iri, "http://rdfs.org/ns/void#triples", num_triples),
   (base_iri, "http://rdfs.org/ns/void#properties", num_properties),
   (base_iri, "http://rdfs.org/ns/void#distinctSubjects", num_distinct_subjects),
   (base_iri, "http://rdfs.org/ns/void#distinctObjects", num_distinct_objects),
   (base_iri, "http://purl.org/HDT/hdt#statisticalInformation", "_:statistics"),
   (base_iri, "http://purl.org/HDT/hdt#statisticalInformation", "_:publicationInformation"),
   (base_iri, "http://purl.org/HDT/hdt#formatInformation", "_:format"),
   ("_:format", "http://purl.org/HDT/hdt#dictionary", "_:dictionary"),
   ("_:format", "http://purl.org/HDT/hdt#triples", "_:triples"),
   ("_:dictionary", "http://purl.org/HDT/hdt#dictionarynumSharedSubjectObject", num_shared),
   ("_:dictionary", "http://purl.org/HDT/hdt#dictionarymapping", "2233"),
   ("_:dictionary", "http://purl.org/HDT/hdt#dictionarysizeStrings", "777"),
   ("_:dictionary", "http://purl.org/HDT/hdt#dictionaryblockSize", "16"),
   ("_:triples", "http://purl.org/dc/terms/format", "http://purl.org/HDT/hdt#triplesBitmap"),
   ("_:triples", "http://purl.org/HDT/hdt#triplesnumTriples", num_triples),
   ("_:triples", "http://purl.org/HDT/hdt#triplesOrder", "SPO"),
   ("_:statistics", "http://purl.org/HDT/hdt#originalSize", original_size),
   ("_:statistics", "http://purl.org/HDT/hdt#hdtSize", "222"),
   ("_:publicationInformation", "http://purl.org/dc/terms/issued", issued)]

/-- One input file as `build_hdt` sees it after the external RDF parser ran:
its extension and its parsed, normalized triples.  File IO, the actual
parser and the temporary-file plumbing are external collaborators. -/
structure SourceFile where
  ext : String
  triples : List (String × String × String)
deriving DecidableEq

/-- Modelled from the spec: `oxrdfio::RdfFormat::from_extension` is an
external crate function; the spec (sections 4.1 and 6) lists the recognized
input extensions. -/
def recognized_extensions : List String := ["nt", "ttl", "nq", "trig", "rdf"]

/-- Models `convert_to_nt` (src/src/lib.rs lines 837-901): process the files
in order, failing with an `InvalidData` error at the first unrecognized
extension, otherwise concatenating the parsed triples (the serialization to
a temporary N-Triples file and its re-parse round-trip faithfully). -/
def convert_to_nt : List SourceFile → RustOutcome (List (String × String × String))
  | [] => .ok []
  | f :: rest =>
    if recognized_extensions.contains f.ext then
      match convert_to_nt rest with
      | .ok ts => .ok (f.triples ++ ts)
      | .err m => .err m
      | .panicked m => .panicked m
    else .err ("unrecognized file extension for " ++ f.ext)

/-- Sequence a list of optional values, `none` when any element is `none`. -/
def sequenceOptions {α : Type} : List (Option α) → Option (List α)
  | [] => some []
  | none :: _ => none
  | some a :: r => (sequenceOptions r).map (a :: ·)

/-- Models `build_hdt` (src/src/lib.rs lines 600-626) composed with
`ConvertedHDT::load` (lines 361-375): an empty file list is an
`InvalidData` error; a single `.nt` file passes through unconverted, any
other input goes through `convert_to_nt` (which checks extensions); then the
dictionary is built, pass 3 encodes the triples (an unreachable failed
lookup would panic) and `BitmapTriples::load` runs.  Writing of the output
file is external IO and not part of the value model. -/
def build_hdt (files : List SourceFile) :
    RustOutcome (FourSectionDictionary × BitmapTriples) :=
  match files with
  | [] => .err "no files provided to convert"
  | f :: rest =>
    match
      (if rest.isEmpty ∧ f.ext = "nt" then .ok f.triples
       else convert_to_nt (f :: rest)) with
    | .err m => .err m
    | .panicked m => .panicked m
    | .ok ts =>
      match sequenceOptions
          (encode_triples (FourSectionDictionary.build ts) ts) with
      | none => .panicked "called `Option::unwrap()` on a `None` value"
      | some enc =>
        match BitmapTriples.load enc with
        | .ok bt => .ok (FourSectionDictionary.build ts, bt)
        | .err m => .err m
        | .panicked m => .panicked m

/-- Unpack a successful `Except.map`. -/
lemma except_map_eq_ok {ε α β : Type} (f : α → β) (e : Except ε α) (b : β)
    (h : e.map f = .ok b) : ∃ a, e = .ok a ∧ b = f a := by
  cases e with
  | error m => simp [Except.map] at h
  | ok a => exact ⟨a, rfl, by simpa [Except.map] using h.symm⟩

/-- Inversion of a successful walk step: the head triple has no zero ID, the
walk of the tail succeeded, and exactly one of the three source branches
fired, determining the appended data. -/
lemma walkAux_cons_ok (last t : EncodedTripleId) (rest : List EncodedTripleId) (q : WalkTail)
    (hq : walkAux last (t :: rest) = .ok q) :
    ∃ q', walkAux t rest = .ok q' ∧
      ¬(t.subject = 0 ∨ t.predicate = 0 ∨ t.object = 0) ∧
      ((t.subject = last.subject + 1 ∧
          q = (true :: q'.1, true :: q'.2.1, t.predicate :: q'.2.2.1, t.object :: q'.2.2.2)) ∨
       (t.subject = last.subject ∧ last.predicate < t.predicate ∧
          q = (false :: q'.1, true :: q'.2.1, t.predicate :: q'.2.2.1, t.object :: q'.2.2.2)) ∨
       (t.subject = last.subject ∧ t.predicate = last.predicate ∧ last.object ≤ t.object ∧
          q = (q'.1, false :: q'.2.1, q'.2.2.1, t.object :: q'.2.2.2))) := by
  rw [walkAux] at hq
  split at hq
  · exact absurd hq (by simp)
  · split at hq
    · split at hq
      · exact absurd hq (by simp)
      · obtain ⟨q', hw, rfl⟩ := except_map_eq_ok _ _ _ hq
        exact ⟨q', hw, by assumption, .inl ⟨by omega, rfl⟩⟩
    · split at hq
      · split at hq
        · exact absurd hq (by simp)
        · obtain ⟨q', hw, rfl⟩ := except_map_eq_ok _ _ _ hq
          exact ⟨q', hw, by assumption, .inr (.inl ⟨by omega, by omega, rfl⟩)⟩
      · split at hq
        · exact absurd hq (by simp)
        · obtain ⟨q', hw, rfl⟩ := except_map_eq_ok _ _ _ hq
          exact ⟨q', hw, by assumption, .inr (.inr ⟨by omega, by omega, by omega, rfl⟩)⟩

/-- A successful walk never sees the subject decrease below the previous
triple's subject. -/
lemma walkAux_mono : ∀ (l : List EncodedTripleId) (last : EncodedTripleId) (q : WalkTail),
    walkAux last l = .ok q → ∀ t ∈ l, last.subject ≤ t.subject := by
  intro l
  induction l with
  | nil => intro last q _ t ht; simp at ht
  | cons t rest ih =>
    intro last q hq u hu
    obtain ⟨q', hw, _, hc⟩ := walkAux_cons_ok last t rest q hq
    rcases List.mem_cons.mp hu with rfl | hu
    · rcases hc with ⟨h1, _⟩ | ⟨h1, _⟩ | ⟨h1, _⟩ <;> omega
    · have := ih t q' hw u hu
      rcases hc with ⟨h1, _⟩ | ⟨h1, _⟩ | ⟨h1, _⟩ <;> omega

/-- A successful walk implies no triple in the walked suffix had a zero ID. -/
lemma walkAux_ok_nonzero : ∀ (l : List EncodedTripleId) (last : EncodedTripleId) (q : WalkTail),
    walkAux last l = .ok q →
    ∀ t ∈ l, ¬(t.subject = 0 ∨ t.predicate = 0 ∨ t.object = 0) := by
  intro l
  induction l with
  | nil => intro last q _ t ht; simp at ht
  | cons t rest ih =>
    intro last q hq u hu
    obtain ⟨q', hw, hz, _⟩ := walkAux_cons_ok last t rest q hq
    rcases List.mem_cons.mp hu with rfl | hu
    · exact hz
    · exact ih t q' hw u hu

/-- Counting facts about a successful walk: By and Y grow in lockstep, Bz and
Z grow in lockstep, Z gets one entry per walked triple, the `1` bits of Bz
match the Y entries, and the `1` bits of By count the distinct subjects seen
so far (minus the still-open final run). -/
lemma walkAux_ok_facts : ∀ (l : List EncodedTripleId) (last : EncodedTripleId) (q : WalkTail),
    walkAux last l = .ok q →
    q.1.length = q.2.2.1.length ∧
    q.2.1.length = q.2.2.2.length ∧
    q.2.2.2.length = l.length ∧
    q.2.1.count true = q.2.2.1.length ∧
    q.1.count true + 1 = ((last :: l).map fun t => t.subject).dedup.length := by
  intro l
  induction l with
  | nil =>
    intro last q hq
    rw [walkAux] at hq
    cases hq
    simp
  | cons t rest ih =>
    intro last q hq
    obtain ⟨q', hw, hz, hc⟩ := walkAux_cons_ok last t rest q hq
    obtain ⟨ih1, ih2, ih3, ih4, ih5⟩ := ih t q' hw
    rcases hc with ⟨hs, rfl⟩ | ⟨hs, hp, rfl⟩ | ⟨hs, hp, ho, rfl⟩
    · have hnot : last.subject ∉ ((t :: rest).map fun t => t.subject) := by
        simp only [List.map_cons, List.mem_cons, List.mem_map]
        push_neg
        refine ⟨by omega, ?_⟩
        intro u hu
        have := walkAux_mono rest t q' hw u hu
        omega
      refine ⟨by simp [ih1], by simp [ih2], by simp [ih3],
        by simp [List.count_cons, ih4], ?_⟩
      rw [List.map_cons, List.dedup_cons_of_not_mem hnot]
      simp only [List.count_cons, List.length_cons]
      simp only [show ((true == true) = true) = True by simp, if_true]
      omega
    · have hin : last.subject ∈ ((t :: rest).map fun t => t.subject) := by
        simp only [List.map_cons, List.mem_cons]
        exact .inl hs.symm
      refine ⟨by simp [ih1], by simp [ih2], by simp [ih3],
        by simp [List.count_cons, ih4], ?_⟩
      rw [List.map_cons, List.dedup_cons_of_mem hin]
      simp only [List.count_cons]
      simpa using ih5
    · have hin : last.subject ∈ ((t :: rest).map fun t => t.subject) := by
        simp only [List.map_cons, List.mem_cons]
        exact .inl hs.symm
      refine ⟨ih1, by simp [ih2], by simp [ih3],
        by simp [List.count_cons, ih4], ?_⟩
      rw [List.map_cons, List.dedup_cons_of_mem hin]
      exact ih5

/-- On input satisfying the hypotheses of claim C2 (positive IDs, strictly
SPO-sorted, subjects advancing by at most one), the source walk and the
spec-text walk agree step for step. -/
lemma walkAux_agrees : ∀ (l : List EncodedTripleId) (last : EncodedTripleId),
    (∀ t ∈ l, 0 < t.subject ∧ 0 < t.predicate ∧ 0 < t.object) →
    List.Chain' spoLt (last :: l) →
    List.Chain' (fun a b => b.subject = a.subject ∨ b.subject = a.subject + 1) (last :: l) →
    ∃ q, walkAux last l = .ok q ∧ specWalkAux last l = some q := by
  intro l
  induction l with
  | nil => intro last _ _ _; exact ⟨([], [], [], []), rfl, rfl⟩
  | cons t rest ih =>
    intro last hpos hlt hstep
    have hlt1 : spoLt last t := (List.chain'_cons.mp hlt).1
    have hltr := (List.chain'_cons.mp hlt).2
    have hstep1 := (List.chain'_cons.mp hstep).1
    have hstepr := (List.chain'_cons.mp hstep).2
    obtain ⟨hp1, hp2, hp3⟩ := hpos t (List.mem_cons_self _ _)
    have hposr : ∀ u ∈ rest, 0 < u.subject ∧ 0 < u.predicate ∧ 0 < u.object :=
      fun u hu => hpos u (List.mem_cons_of_mem _ hu)
    obtain ⟨q, hw, hs⟩ := ih t hposr hltr hstepr
    have hz : ¬(t.subject = 0 ∨ t.predicate = 0 ∨ t.object = 0) := by omega
    rcases hstep1 with hsame | hadv
    · rcases hlt1 with hbad | ⟨heq, hlt2⟩
      · exact absurd hsame (by omega)
      · rcases hlt2 with hplt | ⟨hpe, holt⟩
        · refine ⟨(false :: q.1, true :: q.2.1, t.predicate :: q.2.2.1, t.object :: q.2.2.2),
            ?_, ?_⟩
          · rw [walkAux, if_neg hz, if_neg (by omega : ¬t.subject ≠ last.subject),
              if_pos (by omega : t.predicate ≠ last.predicate),
              if_neg (by omega : ¬t.predicate < last.predicate), hw]
            rfl
          · rw [specWalkAux, if_neg (by omega : ¬t.subject = last.subject + 1),
              if_pos (⟨hsame, hplt⟩ : t.subject = last.subject ∧ last.predicate < t.predicate),
              hs]
            rfl
        · refine ⟨(q.1, false :: q.2.1, q.2.2.1, t.object :: q.2.2.2), ?_, ?_⟩
          · rw [walkAux, if_neg hz, if_neg (by omega : ¬t.subject ≠ last.subject),
              if_neg (by omega : ¬t.predicate ≠ last.predicate),
              if_neg (by omega : ¬t.object < last.object), hw]
            rfl
          · rw [specWalkAux, if_neg (by omega : ¬t.subject = last.subject + 1),
              if_neg (by omega : ¬(t.subject = last.subject ∧ last.predicate < t.predicate)),
              if_pos (⟨hsame, hpe.symm, holt⟩ :
                t.subject = last.subject ∧ t.predicate = last.predicate ∧ last.object < t.object),
              hs]
            rfl
    · refine ⟨(true :: q.1, true :: q.2.1, t.predicate :: q.2.2.1, t.object :: q.2.2.2), ?_, ?_⟩
      · rw [walkAux, if_neg hz, if_pos (by omega : t.subject ≠ last.subject),
          if_neg (by omega : ¬t.subject ≠ last.subject + 1), hw]
        rfl
      · rw [specWalkAux, if_pos hadv, hs]
        rfl

/-- C2: on every input whose SPO-sorted form has positive IDs, is strictly
sorted (hence duplicate-free) and has dense subjects, `BitmapTriples::load`
returns exactly the arrays and bitmaps produced by the section 4.8 walk of
the spec; in particular scenario S3 gives Y=[1,2], Z=[1,2,1], By=[0,1],
Bz=[0,1,1] (bits 0/1 modelled as false/true). -/
theorem claim_C2 :
    (∀ ts : List EncodedTripleId,
        (∀ t ∈ ts, 0 < t.subject ∧ 0 < t.predicate ∧ 0 < t.object) →
        List.Chain' spoLt (sort_triples_spo ts) →
        denseSubjects (sort_triples_spo ts) →
        ∃ bt, specWalk (sort_triples_spo ts) = some bt ∧
          BitmapTriples.load ts = .ok bt) ∧
      BitmapTriples.load [⟨1, 1, 1⟩, ⟨1, 1, 2⟩, ⟨1, 2, 1⟩] =
        .ok ⟨[1, 2], [1, 2, 1], [false, true], [false, true, true]⟩ := by
  constructor
  · intro ts hpos hsorted hdense
    rcases hl : sort_triples_spo ts with _ | ⟨h, rest⟩
    · refine ⟨⟨[], [], [true], [true]⟩, rfl, ?_⟩
      unfold BitmapTriples.load
      rw [hl]
    · have hmem : ∀ t ∈ h :: rest, 0 < t.subject ∧ 0 < t.predicate ∧ 0 < t.object := by
        intro t ht
        apply hpos
        have hts : t ∈ sort_triples_spo ts := by rw [hl]; exact ht
        exact (List.mem_insertionSort _).mp hts
      have hsorted2 : List.Chain' spoLt (h :: rest) := by rw [← hl]; exact hsorted
      have hstep : List.Chain'
          (fun a b => b.subject = a.subject ∨ b.subject = a.subject + 1) (h :: rest) := by
        rw [← hl]; exact hdense.2
      have hposr : ∀ u ∈ rest, 0 < u.subject ∧ 0 < u.predicate ∧ 0 < u.object :=
        fun u hu => hmem u (List.mem_cons_of_mem _ hu)
      obtain ⟨q, hw, hs⟩ := walkAux_agrees rest h hposr hsorted2 hstep
      have hzh : ¬(h.subject = 0 ∨ h.predicate = 0 ∨ h.object = 0) := by
        have := hmem h (List.mem_cons_self _ _)
        omega
      refine ⟨⟨h.predicate :: q.2.2.1, h.object :: q.2.2.2, q.1 ++ [true], q.2.1 ++ [true]⟩,
        ?_, ?_⟩
      · rw [specWalk, hs]
        rfl
      · unfold BitmapTriples.load
        rw [hl]
        simp [hzh, hw]
  · decide

/-- Witness for C2: the general statement applied to a one-triple input. -/
theorem claim_C2_witness :
    ∃ bt, specWalk (sort_triples_spo [⟨1, 2, 3⟩]) = some bt ∧
      BitmapTriples.load [⟨1, 2, 3⟩] = .ok bt :=
  claim_C2.1 [⟨1, 2, 3⟩] (by decide)
    (by show List.Chain' spoLt [⟨1, 2, 3⟩]; simp)
    (by refine ⟨?_, ?_⟩
        · show headSubjectOne [⟨1, 2, 3⟩]
          rfl
        · show List.Chain'
              (fun a b => b.subject = a.subject ∨ b.subject = a.subject + 1)
              [(⟨1, 2, 3⟩ : EncodedTripleId)]
          simp)

/-- C3 counterexample: feeding the same triple (1,1,1) twice, the Z array of
`BitmapTriples::load` has 2 entries while the input has 1 distinct triple, so
duplicates are NOT collapsed to a single encoded triple. -/
theorem claim_C3_counterexample :
    loadedZLength [⟨1, 1, 1⟩, ⟨1, 1, 1⟩] ≠
      some ([(⟨1, 1, 1⟩ : EncodedTripleId), ⟨1, 1, 1⟩].dedup.length) := by decide

/-- C3 as amended: `BitmapTriples::load` emits one Z entry per input triple
occurrence (duplicates included), not one per distinct triple: the duplicate
merely contributes a 0 bit to Bz. -/
theorem claim_C3 : ∀ (ts : List EncodedTripleId) (bt : BitmapTriples),
    BitmapTriples.load ts = .ok bt → bt.z_vec.length = ts.length := by
  intro ts bt h
  have hlen : (sort_triples_spo ts).length = ts.length :=
    List.length_insertionSort _ _
  unfold BitmapTriples.load at h
  split at h
  · rename_i heq
    cases h
    rw [heq] at hlen
    simp only [List.length_nil] at hlen
    exact hlen
  · rename_i h0 rest heq
    rw [heq] at hlen
    split at h
    · simp at h
    · split at h
      · simp at h
      · rename_i q hq
        cases h
        have hf := walkAux_ok_facts rest h0 q hq
        simp only [List.length_cons] at hlen ⊢
        omega

/-- Witness for C3: a one-triple input yields a one-entry Z array. -/
theorem claim_C3_witness :
    (⟨[2], [1], [true], [true]⟩ : BitmapTriples).z_vec.length =
      [(⟨3, 2, 1⟩ : EncodedTripleId)].length :=
  claim_C3 [⟨3, 2, 1⟩] ⟨[2], [1], [true], [true]⟩ (by decide)

/-- C5 counterexample: on the empty triple vector `BitmapTriples::load`
returns Y=[] and By=[1], so the claimed invariant set fails there because
the lengths 0 and 1 differ. -/
theorem claim_C5_counterexample :
    loadedYByLengths [] = some (0, 1) ∧ (0 : Nat) ≠ 1 := by decide

/-- C5 as amended: for every NONEMPTY accepted input the invariants hold:
lengths of Y and By agree, lengths of Z and Bz agree, the 1 bits of By count
the distinct subjects, and the 1 bits of Bz count the Y entries. -/
theorem claim_C5 : ∀ (ts : List EncodedTripleId) (bt : BitmapTriples), ts ≠ [] →
    BitmapTriples.load ts = .ok bt →
    bt.y_vec.length = bt.bitmap_y.length ∧
    bt.z_vec.length = bt.bitmap_z.length ∧
    bt.bitmap_y.count true = ((ts.map fun t => t.subject).dedup).length ∧
    bt.bitmap_z.count true = bt.y_vec.length := by
  intro ts bt hne h
  have hperm : List.Perm (sort_triples_spo ts) ts := List.perm_insertionSort _ _
  have hdedup : ((sort_triples_spo ts).map fun t => t.subject).dedup.length =
      ((ts.map fun t => t.subject).dedup).length :=
    ((hperm.map _).dedup).length_eq
  unfold BitmapTriples.load at h
  split at h
  · rename_i heq
    exfalso
    have := hperm.length_eq
    rw [heq] at this
    exact hne (List.length_eq_zero.mp this.symm)
  · rename_i h0 rest heq
    rw [heq] at hdedup
    split at h
    · simp at h
    · split at h
      · simp at h
      · rename_i q hq
        cases h
        obtain ⟨f1, f2, f3, f4, f5⟩ := walkAux_ok_facts rest h0 q hq
        refine ⟨by simp [f1], by simp [f2], ?_, ?_⟩
        · rw [List.count_append]
          simp only [List.count_singleton]
          rw [← hdedup]
          simp only [show ((true == true) = true) = True by simp, if_true]
          omega
        · rw [List.count_append]
          simp only [List.count_singleton, List.length_cons]
          simp only [show ((true == true) = true) = True by simp, if_true]
          omega

/-- Witness for C5: the invariants evaluated on a two-subject input. -/
theorem claim_C5_witness :
    BitmapTriples.load [⟨1, 1, 1⟩, ⟨2, 1, 1⟩] =
        .ok ⟨[1, 1], [1, 1], [true, true], [true, true]⟩ ∧
      (([1, 1] : List Nat).length = ([true, true] : List Bool).length ∧
        ([1, 1] : List Nat).length = ([true, true] : List Bool).length ∧
        ([true, true] : List Bool).count true =
          (([(⟨1, 1, 1⟩ : EncodedTripleId), ⟨2, 1, 1⟩].map fun t => t.subject).dedup).length ∧
        ([true, true] : List Bool).count true = ([1, 1] : List Nat).length) :=
  ⟨by decide, claim_C5 [⟨1, 1, 1⟩, ⟨2, 1, 1⟩] ⟨[1, 1], [1, 1], [true, true], [true, true]⟩
    (by decide) (by decide)⟩

/-- C6 counterexample: on a zero subject ID `BitmapTriples::load` aborts via
a panic with the source's message; the outcome is not a typed error value
returned to the caller. -/
theorem claim_C6_counterexample :
    BitmapTriples.load [⟨0, 1, 1⟩] = .panicked "something is zero" ∧
      (BitmapTriples.load [⟨0, 1, 1⟩]).isTypedErr = false := by decide

lemma walkAux_ok_chain : ∀ (l : List EncodedTripleId) (last : EncodedTripleId) (q : WalkTail),
    walkAux last l = .ok q → List.Chain' walkStepOk (last :: l) := by
  intro l
  induction l with
  | nil => intro last q _; simp
  | cons t rest ih =>
    intro last q hq
    obtain ⟨q', hw, _, hc⟩ := walkAux_cons_ok last t rest q hq
    refine List.chain'_cons.mpr ⟨?_, ih t q' hw⟩
    rcases hc with ⟨hs, _⟩ | ⟨hs, hp, _⟩ | ⟨hs, hp, ho, _⟩
    · exact .inl hs
    · exact .inr ⟨hs, .inl hp⟩
    · exact .inr ⟨hs, .inr ⟨hp.symm, ho⟩⟩

lemma load_no_err : ∀ (ts : List EncodedTripleId) (m : String),
    BitmapTriples.load ts ≠ .err m := by
  intro ts m h
  unfold BitmapTriples.load at h
  split at h
  · simp at h
  · split at h
    · simp at h
    · split at h <;> simp at h

/-- A successful `BitmapTriples::load` implies the absence of every section
4.8 violation: no zero ID anywhere in the input, and every adjacent pair of
the sorted list passes the walk's step condition. -/
lemma load_ok_valid : ∀ (ts : List EncodedTripleId) (bt : BitmapTriples),
    BitmapTriples.load ts = .ok bt →
    (∀ t ∈ ts, ¬(t.subject = 0 ∨ t.predicate = 0 ∨ t.object = 0)) ∧
    List.Chain' walkStepOk (sort_triples_spo ts) := by
  intro ts bt h
  unfold BitmapTriples.load at h
  split at h
  · rename_i heq
    constructor
    · intro t ht hz2
      have hmem : t ∈ sort_triples_spo ts := (List.mem_insertionSort _).mpr ht
      rw [heq] at hmem
      simp at hmem
    · rw [heq]
      simp
  · rename_i h0 rest heq
    split at h
    · simp at h
    · rename_i hz0
      split at h
      · simp at h
      · rename_i q hq
        constructor
        · intro t ht hz2
          have hmem : t ∈ sort_triples_spo ts := (List.mem_insertionSort _).mpr ht
          rw [heq] at hmem
          rcases List.mem_cons.mp hmem with rfl | hmem2
          · exact hz0 hz2
          · exact walkAux_ok_nonzero rest h0 q hq t hmem2 hz2
        · rw [heq]
          exact walkAux_ok_chain rest h0 q hq

/-- C6 as amended: invariant violations surface as a panic (process abort
carrying a message), never as a typed error result.  Any section 4.8
violation - a zero ID anywhere, or an adjacent pair of the SPO-sorted list
with a subject gap or regression, a predicate regression, or an object
regression (a pair failing `walkStepOk`) - makes `BitmapTriples::load`
panic, and `load` never returns `err`. -/
theorem claim_C6 :
    (∀ ts : List EncodedTripleId,
        ((∃ t ∈ ts, t.subject = 0 ∨ t.predicate = 0 ∨ t.object = 0) ∨
          ¬ List.Chain' walkStepOk (sort_triples_spo ts)) →
        ∃ m, BitmapTriples.load ts = .panicked m) ∧
      ∀ (ts : List EncodedTripleId) (m : String), BitmapTriples.load ts ≠ .err m := by
  constructor
  · intro ts hviol
    cases houtcome : BitmapTriples.load ts with
    | ok bt =>
      exfalso
      obtain ⟨hnz, hchain⟩ := load_ok_valid ts bt houtcome
      rcases hviol with ⟨t0, ht0, hz0⟩ | hnc
      · exact hnz t0 ht0 hz0
      · exact hnc hchain
    | err m => exact absurd houtcome (load_no_err ts m)
    | panicked m => exact ⟨m, rfl⟩
  · exact load_no_err

/-- Witness for C6: the subject-gap branch exercised on a concrete input
whose sorted form jumps from subject 1 to subject 3 (the source panics with
"bad x value" there). -/
theorem claim_C6_witness :
    ∃ m, BitmapTriples.load [⟨1, 1, 1⟩, ⟨3, 1, 1⟩] = .panicked m :=
  claim_C6.1 [⟨1, 1, 1⟩, ⟨3, 1, 1⟩]
    (Or.inr (by
      show ¬ List.Chain' walkStepOk [(⟨1, 1, 1⟩ : EncodedTripleId), ⟨3, 1, 1⟩]
      rw [List.chain'_cons]
      rintro ⟨hstep, -⟩
      simp [walkStepOk] at hstep))

lemma char_toNat_inj {a b : Char} (h : a.toNat = b.toNat) : a = b :=
  Char.eq_of_val_eq (UInt32.eq_of_toBitVec_eq (BitVec.eq_of_toNat_eq h))

lemma charListLt_irrefl : ∀ l, charListLt l l = false := by
  intro l
  induction l with
  | nil => rfl
  | cons a as ih =>
    rw [charListLt]
    simp [Nat.lt_irrefl, ih]

lemma charListLt_trans : ∀ as bs cs, charListLt as bs = true → charListLt bs cs = true →
    charListLt as cs = true := by
  intro as
  induction as with
  | nil =>
    intro bs cs h1 h2
    cases bs with
    | nil => exact absurd h1 (by rw [charListLt]; simp)
    | cons b bs2 =>
      cases cs with
      | nil => exact absurd h2 (by rw [charListLt]; simp)
      | cons c cs2 => rfl
  | cons a as2 ih =>
    intro bs cs h1 h2
    cases bs with
    | nil => exact absurd h1 (by rw [charListLt]; simp)
    | cons b bs2 =>
      cases cs with
      | nil => exact absurd h2 (by rw [charListLt]; simp)
      | cons c cs2 =>
        rw [charListLt] at h1 h2 ⊢
        rcases Nat.lt_trichotomy a.toNat b.toNat with hab | hab | hab
        · rcases Nat.lt_trichotomy b.toNat c.toNat with hbc | hbc | hbc
          · rw [if_pos (Nat.lt_trans hab hbc)]
          · rw [if_pos (hbc ▸ hab)]
          · rw [if_neg (Nat.lt_asymm hbc), if_pos hbc] at h2
            exact absurd h2 (by simp)
        · have hb : a = b := char_toNat_inj hab
          subst hb
          rw [if_neg (Nat.lt_irrefl _), if_neg (Nat.lt_irrefl _)] at h1
          rcases Nat.lt_trichotomy a.toNat c.toNat with hac | hac | hac
          · rw [if_pos hac]
          · have hc : a = c := char_toNat_inj hac
            subst hc
            rw [if_neg (Nat.lt_irrefl _), if_neg (Nat.lt_irrefl _)] at h2 ⊢
            exact ih bs2 cs2 h1 h2
          · rw [if_neg (Nat.lt_asymm hac), if_pos hac] at h2
            exact absurd h2 (by simp)
        · rw [if_neg (Nat.lt_asymm hab), if_pos hab] at h1
          exact absurd h1 (by simp)

lemma charListLt_total : ∀ as bs, charListLt as bs = false → as ≠ bs →
    charListLt bs as = true := by
  intro as
  induction as with
  | nil =>
    intro bs h hne
    cases bs with
    | nil => exact absurd rfl hne
    | cons b bs2 => exact absurd h (by rw [charListLt]; simp)
  | cons a as2 ih =>
    intro bs h hne
    cases bs with
    | nil => rfl
    | cons b bs2 =>
      rw [charListLt] at h ⊢
      rcases Nat.lt_trichotomy a.toNat b.toNat with hab | hab | hab
      · exact absurd h (by simp [hab])
      · have hc : a = b := char_toNat_inj hab
        subst hc
        simp only [Nat.lt_irrefl, if_neg] at h ⊢
        have hne2 : as2 ≠ bs2 := fun he => hne (by rw [he])
        simp only [if_false]
        exact ih bs2 (by simpa using h) hne2
      · simp [hab, Nat.lt_asymm hab]

lemma strLt_irrefl (a : String) : strLt a a = false := charListLt_irrefl a.data

lemma strLt_trans {a b c : String} (h1 : strLt a b = true) (h2 : strLt b c = true) :
    strLt a c = true := charListLt_trans a.data b.data c.data h1 h2

lemma strLt_ne {a b : String} (h : strLt a b = true) : a ≠ b := by
  intro he
  subst he
  rw [strLt_irrefl] at h
  exact Bool.noConfusion h

lemma strLt_total {a b : String} (h : strLt a b = false) (hne : a ≠ b) :
    strLt b a = true :=
  charListLt_total a.data b.data h fun hd => hne (String.ext hd)

lemma insertSorted_mem (b a : String) : ∀ l, a ∈ insertSorted b l ↔ a = b ∨ a ∈ l := by
  intro l
  induction l with
  | nil => simp [insertSorted]
  | cons h r ih =>
    by_cases h1 : strLt b h = true
    · rw [insertSorted, if_pos h1]
      simp [List.mem_cons]
    · by_cases h2 : b = h
      · subst h2
        rw [insertSorted, if_neg h1, if_pos rfl]
        simp only [List.mem_cons]
        tauto
      · rw [insertSorted, if_neg h1, if_neg h2]
        simp only [List.mem_cons, ih]
        tauto

lemma insertSorted_pairwise (b : String) : ∀ l,
    l.Pairwise (fun x y => strLt x y = true) →
    (insertSorted b l).Pairwise (fun x y => strLt x y = true) := by
  intro l
  induction l with
  | nil => intro; simp [insertSorted]
  | cons h r ih =>
    intro hp
    obtain ⟨hh, hr⟩ := List.pairwise_cons.mp hp
    by_cases h1 : strLt b h = true
    · rw [insertSorted, if_pos h1]
      refine List.pairwise_cons.mpr ⟨?_, hp⟩
      intro a ha
      rcases List.mem_cons.mp ha with rfl | har
      · exact h1
      · exact strLt_trans h1 (hh a har)
    · by_cases h2 : b = h
      · rw [insertSorted, if_neg h1, if_pos h2]
        exact hp
      · rw [insertSorted, if_neg h1, if_neg h2]
        have hbh : strLt h b = true :=
          strLt_total (Bool.not_eq_true _ ▸ h1 : strLt b h = false) h2
        refine List.pairwise_cons.mpr ⟨?_, ih hr⟩
        intro a ha
        rcases (insertSorted_mem b a r).mp ha with rfl | har
        · exact hbh
        · exact hh a har

lemma foldl_insertSorted_mem : ∀ (l acc : List String) (a : String),
    (a ∈ l.foldl (fun acc s => insertSorted s acc) acc) ↔ a ∈ acc ∨ a ∈ l := by
  intro l
  induction l with
  | nil => simp
  | cons h r ih =>
    intro acc a
    rw [List.foldl_cons, ih, insertSorted_mem]
    simp only [List.mem_cons]
    tauto

lemma foldl_insertSorted_pairwise : ∀ (l acc : List String),
    acc.Pairwise (fun x y => strLt x y = true) →
    (l.foldl (fun acc s => insertSorted s acc) acc).Pairwise
      (fun x y => strLt x y = true) := by
  intro l
  induction l with
  | nil => intro acc h; simpa using h
  | cons h r ih =>
    intro acc hacc
    rw [List.foldl_cons]
    exact ih _ (insertSorted_pairwise h acc hacc)

lemma setOfList_mem (l : List String) (a : String) : a ∈ setOfList l ↔ a ∈ l := by
  rw [setOfList, foldl_insertSorted_mem]
  simp

lemma setOfList_pairwise (l : List String) :
    (setOfList l).Pairwise (fun x y => strLt x y = true) :=
  foldl_insertSorted_pairwise l [] (by simp)

lemma lookupIdx_isSome_iff : ∀ (l : List String) (t : String),
    (lookupIdx l t).isSome = true ↔ t ∈ l := by
  intro l
  induction l with
  | nil => simp [lookupIdx]
  | cons h r ih =>
    intro t
    rw [lookupIdx]
    by_cases he : t = h
    · simp [he]
    · rw [if_neg he]
      rcases hv : lookupIdx r t with _ | j
      · have hmem : t ∉ r := by
          intro hm
          have := (ih t).mpr hm
          rw [hv] at this
          simp at this
        simp [he, hmem]
      · have hmem : t ∈ r := (ih t).mp (by rw [hv]; rfl)
        simp [he, hmem]

lemma lookupIdx_eq_none (l : List String) (t : String) (h : t ∉ l) : lookupIdx l t = none := by
  have := (lookupIdx_isSome_iff l t).not.mpr h
  cases hv : lookupIdx l t
  · rfl
  · rw [hv] at this
    simp at this

lemma lookupIdx_mem : ∀ (l : List String) (t : String), t ∈ l →
    ∃ j, lookupIdx l t = some j ∧ j < l.length := by
  intro l
  induction l with
  | nil => simp
  | cons h r ih =>
    intro t ht
    rw [lookupIdx]
    by_cases he : t = h
    · exact ⟨0, by rw [if_pos he], by simp⟩
    · rcases List.mem_cons.mp ht with rfl | hr
      · exact absurd rfl he
      · obtain ⟨j, hj, hlt⟩ := ih t hr
        exact ⟨j + 1, by rw [if_neg he, hj]; rfl, by simp; omega⟩

lemma lookupIdx_get : ∀ (l : List String), l.Nodup → ∀ (i : Nat) (h : i < l.length),
    lookupIdx l (l.get ⟨i, h⟩) = some i := by
  intro l
  induction l with
  | nil => intro _ i h; simp at h
  | cons x r ih =>
    intro hnd i h
    obtain ⟨hx, hr⟩ := List.pairwise_cons.mp hnd
    match i with
    | 0 => rw [lookupIdx]; simp
    | i + 1 =>
      have hi : i < r.length := by simpa using h
      have hget : (x :: r).get ⟨i + 1, h⟩ = r.get ⟨i, hi⟩ := rfl
      rw [hget, lookupIdx,
        if_neg (fun he => hx _ (List.get_mem r i hi) he.symm),
        ih hr i hi]
      rfl

/-- The four group lists produced by `build` are strictly sorted. -/
lemma build_pairwise (ts : List (String × String × String)) :
    (FourSectionDictionary.build ts).shared_terms.Pairwise (fun x y => strLt x y = true) ∧
    (FourSectionDictionary.build ts).subject_terms.Pairwise (fun x y => strLt x y = true) ∧
    (FourSectionDictionary.build ts).object_terms.Pairwise (fun x y => strLt x y = true) ∧
    (FourSectionDictionary.build ts).predicate_terms.Pairwise (fun x y => strLt x y = true) :=
  ⟨(setOfList_pairwise _).filter _, (setOfList_pairwise _).filter _,
    (setOfList_pairwise _).filter _, setOfList_pairwise _⟩

/-- Membership in the groups, unfolded to membership in the term sets. -/
lemma build_mem (ts : List (String × String × String)) (a : String) :
    (a ∈ (FourSectionDictionary.build ts).shared_terms ↔
      a ∈ ts.map (fun t => t.1) ∧ a ∈ ts.map (fun t => t.2.2)) ∧
    (a ∈ (FourSectionDictionary.build ts).subject_terms ↔
      a ∈ ts.map (fun t => t.1) ∧ a ∉ (FourSectionDictionary.build ts).shared_terms) ∧
    (a ∈ (FourSectionDictionary.build ts).object_terms ↔
      a ∈ ts.map (fun t => t.2.2) ∧ a ∉ (FourSectionDictionary.build ts).shared_terms) ∧
    (a ∈ (FourSectionDictionary.build ts).predicate_terms ↔ a ∈ ts.map (fun t => t.2.1)) := by
  refine ⟨?_, ?_, ?_, ?_⟩ <;>
    simp [FourSectionDictionary.build, List.mem_filter, setOfList_mem]

/-- C10: every lookup of pass 3 succeeds, because pass 1 inserted every
subject into the subject set (hence into shared or subject-only), every
object into the object set, and every predicate into the predicate set; the
`.unwrap()` calls inside `term_to_id` are unreachable on the triples of the
same input. -/
theorem claim_C10 : ∀ (ts : List (String × String × String)) (x : String × String × String),
    x ∈ ts →
    ((FourSectionDictionary.build ts).term_to_id x.1 .Subject).isSome = true ∧
    ((FourSectionDictionary.build ts).term_to_id x.2.1 .Predicate).isSome = true ∧
    ((FourSectionDictionary.build ts).term_to_id x.2.2 .Object).isSome = true := by
  intro ts x hx
  obtain ⟨hmS, hmSub, hmO, hmP⟩ := build_mem ts x.1
  refine ⟨?_, ?_, ?_⟩
  · rw [FourSectionDictionary.term_to_id]
    rcases hv : lookupIdx (FourSectionDictionary.build ts).shared_terms x.1 with _ | i
    · have hns : x.1 ∉ (FourSectionDictionary.build ts).shared_terms := by
        intro hm
        obtain ⟨j, hj, _⟩ := lookupIdx_mem _ _ hm
        rw [hv] at hj
        exact Option.noConfusion hj
      have hsub : x.1 ∈ (FourSectionDictionary.build ts).subject_terms :=
        hmSub.mpr ⟨List.mem_map.mpr ⟨x, hx, rfl⟩, hns⟩
      obtain ⟨j, hj, _⟩ := lookupIdx_mem _ _ hsub
      simp [hj]
    · simp
  · rw [FourSectionDictionary.term_to_id]
    have hp : x.2.1 ∈ (FourSectionDictionary.build ts).predicate_terms :=
      (build_mem ts x.2.1).2.2.2.mpr (List.mem_map.mpr ⟨x, hx, rfl⟩)
    obtain ⟨j, hj, _⟩ := lookupIdx_mem _ _ hp
    simp [hj]
  · rw [FourSectionDictionary.term_to_id]
    rcases hv : lookupIdx (FourSectionDictionary.build ts).shared_terms x.2.2 with _ | i
    · have hns : x.2.2 ∉ (FourSectionDictionary.build ts).shared_terms := by
        intro hm
        obtain ⟨j, hj, _⟩ := lookupIdx_mem _ _ hm
        rw [hv] at hj
        exact Option.noConfusion hj
      have hobj : x.2.2 ∈ (FourSectionDictionary.build ts).object_terms :=
        (build_mem ts x.2.2).2.2.1.mpr ⟨List.mem_map.mpr ⟨x, hx, rfl⟩, hns⟩
      obtain ⟨j, hj, _⟩ := lookupIdx_mem _ _ hobj
      simp [hj]
    · simp

/-- Witness for C10: the lookups succeed on the triples of scenario S2. -/
theorem claim_C10_witness :
    ((FourSectionDictionary.build [("a", "p", "b"), ("b", "p", "c")]).term_to_id
        "a" .Subject).isSome = true ∧
    ((FourSectionDictionary.build [("a", "p", "b"), ("b", "p", "c")]).term_to_id
        "p" .Predicate).isSome = true ∧
    ((FourSectionDictionary.build [("a", "p", "b"), ("b", "p", "c")]).term_to_id
        "b" .Object).isSome = true :=
  claim_C10 [("a", "p", "b"), ("b", "p", "c")] ("a", "p", "b") (by simp)

lemma lookupIdx_some_lt : ∀ (l : List String) (t : String) (i : Nat),
    lookupIdx l t = some i → i < l.length := by
  intro l
  induction l with
  | nil => intro t i h; rw [lookupIdx] at h; exact Option.noConfusion h
  | cons x r ih =>
    intro t i h
    rw [lookupIdx] at h
    by_cases he : t = x
    · rw [if_pos he] at h
      cases h
      simp
    · rw [if_neg he] at h
      rcases hv : lookupIdx r t with _ | j
      · rw [hv] at h
        exact Option.noConfusion h
      · rw [hv] at h
        have hj := ih t j hv
        have : j + 1 = i := by simpa using h
        simp
        omega

/-- A term seen as a subject gets a positive id bounded by |SO| + |S|. -/
lemma term_to_id_subject_bounds (ts : List (String × String × String)) (a : String)
    (ha : a ∈ ts.map fun t => t.1) :
    ∃ s, (FourSectionDictionary.build ts).term_to_id a .Subject = some s ∧ 1 ≤ s ∧
      s ≤ (FourSectionDictionary.build ts).shared_terms.length +
        (FourSectionDictionary.build ts).subject_terms.length := by
  rw [FourSectionDictionary.term_to_id]
  rcases hv : lookupIdx (FourSectionDictionary.build ts).shared_terms a with _ | i
  · have hns : a ∉ (FourSectionDictionary.build ts).shared_terms := by
      intro hm
      obtain ⟨j, hj, _⟩ := lookupIdx_mem _ _ hm
      rw [hv] at hj
      exact Option.noConfusion hj
    have hsub : a ∈ (FourSectionDictionary.build ts).subject_terms :=
      (build_mem ts a).2.1.mpr ⟨ha, hns⟩
    obtain ⟨j, hj, hlt⟩ := lookupIdx_mem _ _ hsub
    exact ⟨j + (FourSectionDictionary.build ts).shared_terms.length + 1,
      by simp [hj], by omega, by omega⟩
  · have hlt : i < (FourSectionDictionary.build ts).shared_terms.length :=
      lookupIdx_some_lt _ _ _ hv
    exact ⟨i + 1, rfl, by omega, by omega⟩

/-- A term seen as an object gets a positive id bounded by |SO| + |O|. -/
lemma term_to_id_object_bounds (ts : List (String × String × String)) (a : String)
    (ha : a ∈ ts.map fun t => t.2.2) :
    ∃ o, (FourSectionDictionary.build ts).term_to_id a .Object = some o ∧ 1 ≤ o ∧
      o ≤ (FourSectionDictionary.build ts).shared_terms.length +
        (FourSectionDictionary.build ts).object_terms.length := by
  rw [FourSectionDictionary.term_to_id]
  rcases hv : lookupIdx (FourSectionDictionary.build ts).shared_terms a with _ | i
  · have hns : a ∉ (FourSectionDictionary.build ts).shared_terms := by
      intro hm
      obtain ⟨j, hj, _⟩ := lookupIdx_mem _ _ hm
      rw [hv] at hj
      exact Option.noConfusion hj
    have hobj : a ∈ (FourSectionDictionary.build ts).object_terms :=
      (build_mem ts a).2.2.1.mpr ⟨ha, hns⟩
    obtain ⟨j, hj, hlt⟩ := lookupIdx_mem _ _ hobj
    exact ⟨j + (FourSectionDictionary.build ts).shared_terms.length + 1,
      by simp [hj], by omega, by omega⟩
  · have hlt : i < (FourSectionDictionary.build ts).shared_terms.length :=
      lookupIdx_some_lt _ _ _ hv
    exact ⟨i + 1, rfl, by omega, by omega⟩

/-- A term seen as a predicate gets a positive id bounded by |P|. -/
lemma term_to_id_predicate_bounds (ts : List (String × String × String)) (a : String)
    (ha : a ∈ ts.map fun t => t.2.1) :
    ∃ p, (FourSectionDictionary.build ts).term_to_id a .Predicate = some p ∧ 1 ≤ p ∧
      p ≤ (FourSectionDictionary.build ts).predicate_terms.length := by
  rw [FourSectionDictionary.term_to_id]
  have hp : a ∈ (FourSectionDictionary.build ts).predicate_terms :=
    (build_mem ts a).2.2.2.mpr ha
  obtain ⟨j, hj, hlt⟩ := lookupIdx_mem _ _ hp
  exact ⟨j + 1, by simp [hj], by omega, by omega⟩

/-- C4: the dictionary assigns ids exactly as specified: within each group
the term list is strictly lexicographically sorted and the i-th term of the
shared group gets id i+1 (so ids run over 1..|SO|), the i-th subject-only
term gets id |SO|+i+1 (ids |SO|+1..|SO|+|S|), the i-th object-only term gets
id |SO|+i+1 (ids |SO|+1..|SO|+|O|, sharing the low range with subjects), the
i-th predicate gets id i+1 in its independent namespace; and every triple of
the input encodes to ids with 1 ≤ s ≤ |SO|+|S|, 1 ≤ p ≤ |P|,
1 ≤ o ≤ |SO|+|O|, none zero. -/
theorem claim_C4 : ∀ ts : List (String × String × String),
    ((FourSectionDictionary.build ts).shared_terms.Pairwise (fun x y => strLt x y = true) ∧
     (FourSectionDictionary.build ts).subject_terms.Pairwise (fun x y => strLt x y = true) ∧
     (FourSectionDictionary.build ts).object_terms.Pairwise (fun x y => strLt x y = true) ∧
     (FourSectionDictionary.build ts).predicate_terms.Pairwise (fun x y => strLt x y = true)) ∧
    ((∀ (i : Nat) (h : i < (FourSectionDictionary.build ts).shared_terms.length),
        (FourSectionDictionary.build ts).term_to_id
          ((FourSectionDictionary.build ts).shared_terms.get ⟨i, h⟩) .Subject =
          some (i + 1)) ∧
     (∀ (i : Nat) (h : i < (FourSectionDictionary.build ts).subject_terms.length),
        (FourSectionDictionary.build ts).term_to_id
          ((FourSectionDictionary.build ts).subject_terms.get ⟨i, h⟩) .Subject =
          some (i + (FourSectionDictionary.build ts).shared_terms.length + 1)) ∧
     (∀ (i : Nat) (h : i < (FourSectionDictionary.build ts).object_terms.length),
        (FourSectionDictionary.build ts).term_to_id
          ((FourSectionDictionary.build ts).object_terms.get ⟨i, h⟩) .Object =
          some (i + (FourSectionDictionary.build ts).shared_terms.length + 1)) ∧
     (∀ (i : Nat) (h : i < (FourSectionDictionary.build ts).predicate_terms.length),
        (FourSectionDictionary.build ts).term_to_id
          ((FourSectionDictionary.build ts).predicate_terms.get ⟨i, h⟩) .Predicate =
          some (i + 1))) ∧
    (∀ x ∈ ts, ∃ s p o,
        (FourSectionDictionary.build ts).term_to_id x.1 .Subject = some s ∧
        1 ≤ s ∧ s ≤ (FourSectionDictionary.build ts).shared_terms.length +
          (FourSectionDictionary.build ts).subject_terms.length ∧
        (FourSectionDictionary.build ts).term_to_id x.2.1 .Predicate = some p ∧
        1 ≤ p ∧ p ≤ (FourSectionDictionary.build ts).predicate_terms.length ∧
        (FourSectionDictionary.build ts).term_to_id x.2.2 .Object = some o ∧
        1 ≤ o ∧ o ≤ (FourSectionDictionary.build ts).shared_terms.length +
          (FourSectionDictionary.build ts).object_terms.length) := by
  intro ts
  obtain ⟨pS, pSub, pO, pP⟩ := build_pairwise ts
  refine ⟨⟨pS, pSub, pO, pP⟩, ⟨?_, ?_, ?_, ?_⟩, ?_⟩
  · intro i h
    have nd : (FourSectionDictionary.build ts).shared_terms.Nodup :=
      pS.imp strLt_ne
    rw [FourSectionDictionary.term_to_id, lookupIdx_get _ nd i h]
  · intro i h
    have nd : (FourSectionDictionary.build ts).subject_terms.Nodup :=
      pSub.imp strLt_ne
    have hm := List.get_mem (FourSectionDictionary.build ts).subject_terms i h
    have hns := ((build_mem ts _).2.1.mp hm).2
    rw [FourSectionDictionary.term_to_id, lookupIdx_eq_none _ _ hns,
      lookupIdx_get _ nd i h]
    rfl
  · intro i h
    have nd : (FourSectionDictionary.build ts).object_terms.Nodup :=
      pO.imp strLt_ne
    have hm := List.get_mem (FourSectionDictionary.build ts).object_terms i h
    have hns := ((build_mem ts _).2.2.1.mp hm).2
    rw [FourSectionDictionary.term_to_id, lookupIdx_eq_none _ _ hns,
      lookupIdx_get _ nd i h]
    rfl
  · intro i h
    have nd : (FourSectionDictionary.build ts).predicate_terms.Nodup :=
      pP.imp strLt_ne
    rw [FourSectionDictionary.term_to_id, lookupIdx_get _ nd i h]
    rfl
  · intro x hx
    obtain ⟨s, hs, hs1, hs2⟩ :=
      term_to_id_subject_bounds ts x.1 (List.mem_map.mpr ⟨x, hx, rfl⟩)
    obtain ⟨p, hp, hp1, hp2⟩ :=
      term_to_id_predicate_bounds ts x.2.1 (List.mem_map.mpr ⟨x, hx, rfl⟩)
    obtain ⟨o, ho, ho1, ho2⟩ :=
      term_to_id_object_bounds ts x.2.2 (List.mem_map.mpr ⟨x, hx, rfl⟩)
    exact ⟨s, p, o, hs, hs1, hs2, hp, hp1, hp2, ho, ho1, ho2⟩

/-- Witness for C4: on scenario S2 the shared term "b" (position 0 of the
shared group) gets subject id 1, and the triple ("a","p","b") encodes within
bounds. -/
theorem claim_C4_witness :
    (FourSectionDictionary.build [("a", "p", "b"), ("b", "p", "c")]).term_to_id
      ((FourSectionDictionary.build [("a", "p", "b"), ("b", "p", "c")]).shared_terms.get
        ⟨0, by decide⟩) .Subject = some 1 ∧
    (∃ s p o,
        (FourSectionDictionary.build [("a", "p", "b"), ("b", "p", "c")]).term_to_id
          "a" .Subject = some s ∧
        1 ≤ s ∧ s ≤ (FourSectionDictionary.build
            [("a", "p", "b"), ("b", "p", "c")]).shared_terms.length +
          (FourSectionDictionary.build
            [("a", "p", "b"), ("b", "p", "c")]).subject_terms.length ∧
        (FourSectionDictionary.build [("a", "p", "b"), ("b", "p", "c")]).term_to_id
          "p" .Predicate = some p ∧
        1 ≤ p ∧ p ≤ (FourSectionDictionary.build
          [("a", "p", "b"), ("b", "p", "c")]).predicate_terms.length ∧
        (FourSectionDictionary.build [("a", "p", "b"), ("b", "p", "c")]).term_to_id
          "b" .Object = some o ∧
        1 ≤ o ∧ o ≤ (FourSectionDictionary.build
            [("a", "p", "b"), ("b", "p", "c")]).shared_terms.length +
          (FourSectionDictionary.build
            [("a", "p", "b"), ("b", "p", "c")]).object_terms.length) :=
  ⟨(claim_C4 [("a", "p", "b"), ("b", "p", "c")]).2.1.1 0 (by decide),
    (claim_C4 [("a", "p", "b"), ("b", "p", "c")]).2.2 ("a", "p", "b") (by simp)⟩

/-- C1 evaluated at the failing inputs: on the sorted set of terms "éa", "éb"
the shared character prefix has length 1 but byte index 1 falls inside the
two-byte character 'é', so the byte slice panics and `compress` returns no
result - while the spec-mandated bytes (vbyte of L, then the term bytes with
the first L CHARACTERS removed) are the well-defined [1, 98].  On "éé1",
"éé2" the character count 2 happens to hit a byte boundary (after the first
'é') and `compress` silently emits the three-byte suffix [195, 169, 50]
("é2") where the spec requires the one-byte suffix "2". -/
theorem claim_C1 :
    LogSequence2.compress [['é', 'a'], ['é', 'b']] = none ∧
    encode_vbyte (common_prefix_len ['é', 'a'] ['é', 'b']) ++
      utf8Bytes (['é', 'b'].drop (common_prefix_len ['é', 'a'] ['é', 'b'])) = [1, 98] ∧
    LogSequence2.compress [['é', 'é', '1'], ['é', 'é', '2']] =
      some ⟨[195, 169, 195, 169, 49, 0, 2, 195, 169, 50, 0], [0, 11], 2⟩ := by decide

/-- C8: for every u32 slice, `save_u32_vec` writes exactly the claimed byte
sequence: the incrementally hashed header checksum equals the CRC-8 of the
whole header region, and the write order matches the layout. -/
theorem claim_C8 : ∀ ints : List Nat, save_u32_vec ints = save_u32_vec_layout ints := by
  intro ints
  simp [save_u32_vec, save_u32_vec_layout, crc8, convert_vec_u32_to_vec_u8,
    List.foldl_append, List.append_assoc]

/-- C9 evaluated on the code: whatever the parameter values, the header
graph never contains the triple (baseIRI, hdt:publicationInformation,
_:publicationInformation) - the blank node _:publicationInformation is
instead linked by a second hdt:statisticalInformation triple (the source
passes `HDT_STATISTICAL_INFORMATION` where its own C++ reference comment
says `HDT_PUBLICATION_INFORMATION`; the constant `HDT_PUBLICATION_INFORMATION`
is defined but never used). -/
theorem claim_C9 : ∀ base_iri nt np nds ndo nsh os iss : String,
    (base_iri, "http://purl.org/HDT/hdt#publicationInformation",
        "_:publicationInformation") ∉
      build_header base_iri nt np nds ndo nsh os iss ∧
    (base_iri, "http://purl.org/HDT/hdt#statisticalInformation",
        "_:publicationInformation") ∈
      build_header base_iri nt np nds ndo nsh os iss := by
  intro base_iri nt np nds ndo nsh os iss
  constructor
  · intro hmem
    simp only [build_header, List.mem_cons, List.not_mem_nil, or_false,
      Prod.mk.injEq] at hmem
    rcases hmem with h | h | h | h | h | h | h | h | h | h | h |
      h | h | h | h | h | h | h | h | h | h <;>
      exact absurd h.2.1 (by decide)
  · simp [build_header]

/-- C7 counterexample: a single `.nt` file that parses to ZERO triples makes
`build_hdt` succeed - with empty dictionary sections and the sentinel-only
bitmaps - rather than fail with an InvalidInput error. -/
theorem claim_C7_counterexample :
    build_hdt [⟨"nt", []⟩] =
      .ok (⟨[], [], [], []⟩, ⟨[], [], [true], [true]⟩) := by decide

lemma convert_to_nt_err : ∀ files : List SourceFile,
    (∃ f ∈ files, recognized_extensions.contains f.ext = false) →
    ∃ m, convert_to_nt files = .err m := by
  intro files
  induction files with
  | nil =>
    rintro ⟨f, hf, _⟩
    simp at hf
  | cons g rest ih =>
    rintro ⟨f, hf, hbad⟩
    rw [convert_to_nt]
    by_cases hg : recognized_extensions.contains g.ext = true
    · rw [if_pos hg]
      have hrest : ∃ f ∈ rest, recognized_extensions.contains f.ext = false := by
        rcases List.mem_cons.mp hf with rfl | hfr
        · rw [hg] at hbad
          exact Bool.noConfusion hbad
        · exact ⟨f, hfr, hbad⟩
      obtain ⟨m, hm⟩ := ih hrest
      rw [hm]
      exact ⟨m, rfl⟩
    · rw [if_neg hg]
      exact ⟨_, rfl⟩

/-- C7 as amended: `build_hdt` fails with the InvalidData error on an empty
file list and on any unrecognized extension, but an input parsing to zero
triples SUCCEEDS (producing the empty dictionary and sentinel bitmaps, as
spec scenario S5 describes) - there is no zero-triple check. -/
theorem claim_C7 :
    build_hdt [] = .err "no files provided to convert" ∧
    (∀ files : List SourceFile,
        (∃ f ∈ files, recognized_extensions.contains f.ext = false) →
        ∃ m, build_hdt files = .err m) ∧
    (build_hdt [⟨"nt", []⟩]).isOk = true := by
  refine ⟨rfl, ?_, by decide⟩
  rintro files ⟨f, hf, hbad⟩
  rcases files with _ | ⟨g, rest⟩
  · simp at hf
  · rw [build_hdt]
    have hconv : ∃ m, convert_to_nt (g :: rest) = .err m :=
      convert_to_nt_err (g :: rest) ⟨f, hf, hbad⟩
    obtain ⟨m, hm⟩ := hconv
    by_cases hsingle : rest.isEmpty ∧ g.ext = "nt"
    · exfalso
      rcases List.mem_cons.mp hf with rfl | hfr
      · rw [hsingle.2] at hbad
        exact Bool.noConfusion hbad
      · have : rest = [] := by
          cases rest
          · rfl
          · exact absurd hsingle.1 (by simp)
        rw [this] at hfr
        simp at hfr
    · rw [if_neg hsingle, hm]
      exact ⟨m, rfl⟩

/-- Witness for C7: the empty list errors, and a single file with the
unrecognized extension "xyz" errors. -/
theorem claim_C7_witness :
    build_hdt [] = .err "no files provided to convert" ∧
    ∃ m, build_hdt [⟨"xyz", []⟩] = .err m :=
  ⟨claim_C7.1, claim_C7.2.1 [⟨"xyz", []⟩] ⟨⟨"xyz", []⟩, by decide, by decide⟩⟩

end Rdf2Hdt
